import Mathlib

/-! rsmt2d: the codec contract and the codec registry (`codecs.go`)

Shallow embedding of `codecs.go`:

* the interface type `Codec` (its method set), and Go interface values of that
  type, which are either `nil` or hold a dynamic value;
* the package-level map `codecs : map[string]Codec`, with the two map
  operations the file uses: the index expression `codecs[ct]` and the
  assignment `codecs[ct] = codec`;
* `registerCodec`, with the panic made explicit in the result.

The map is threaded through explicitly: every operation takes the current
contents of `codecs` and returns the contents it leaves behind.
-/

namespace Rsmt2d

/-! ## Data model -/

/-- The constant `Leopard`, the name of the Leopard codec. -/
def Leopard : String := "Leopard"

/-- A Go `error` value as far as this file is concerned: the package-level
sentinel `ErrTooFewShares` (`errors.New("too few shards given")`), compared by
identity, or any other error, kept by its message. -/
inductive GoError where
  | ErrTooFewShares : GoError
  | other (msg : String) : GoError
  deriving DecidableEq, Repr

/-- A share, Go `[]byte`: `none` is the nil slice, `some bs` a slice holding
the bytes `bs` (each below 256). -/
abbrev Share := Option (List Nat)

/-- The method set of the Go interface `Codec`, one field per method, in the
order of the declaration. `ReconstructSome` works in place in Go, so here it
returns the contents of `data` after the call next to the error (`none` is a
nil error). -/
structure Codec where
  Encode : List Share → Except GoError (List Share)
  Decode : List Share → Except GoError (List Share)
  ReconstructSome : List Share → List Bool → List Share × Option GoError
  MaxChunks : Int
  Name : String
  ValidateChunkSize : Int → Option GoError

/-- A Go interface value of type `Codec`: `none` is the nil interface,
`some c` holds the dynamic value `c`. -/
abbrev CodecValue := Option Codec

/-- The method call `codec.Name()` on an interface value: calling a method on
the nil interface is a run-time panic (`none`), otherwise the dynamic value
answers. -/
def CodecValue.callName : CodecValue → Option String
  | none => none
  | some c => some c.Name

/-- The Go map type `map[string]Codec`: a key is either absent (`none`) or
present with an interface value, which may itself be nil (`some none`). -/
abbrev CodecMap := String → Option CodecValue

/-- The initial value of the global, `make(map[string]Codec)`: no key present. -/
def emptyCodecs : CodecMap := fun _ => none

/-- The Go index expression `codecs[ct]` (single-value form): the value stored
under `ct`, or the zero value of `Codec`, nil, when the key is absent. -/
def mapIndex (codecs : CodecMap) (ct : String) : CodecValue :=
  match codecs ct with
  | some v => v
  | none => none

/-- The Go assignment `codecs[ct] = codec`: afterwards the key `ct` is present
with value `codec`, every other key is as before. -/
def mapAssign (codecs : CodecMap) (ct : String) (codec : CodecValue) : CodecMap :=
  fun k => if k = ct then some codec else codecs k

/-! ## `registerCodec` -/

/-- The value handed to `panic` by `registerCodec`:
`fmt.Sprintf("%v already registered", codec)`. The rendering of `%v` is left
to `fmt`; the value keeps the argument that is formatted. -/
inductive PanicValue where
  | alreadyRegistered (codec : CodecValue) : PanicValue

/-- What a call leaves behind: the contents of the global `codecs` after the
call and, when the call panicked, the panic value (`none`: the call returned
normally). -/
structure CallResult where
  codecs : CodecMap
  panic : Option PanicValue

/-- The function `registerCodec`:
```go
func registerCodec(ct string, codec Codec) {
	if codecs[ct] != nil {
		panic(fmt.Sprintf("%v already registered", codec))
	}
	codecs[ct] = codec
}
```
-/
def registerCodec (codecs : CodecMap) (ct : String) (codec : CodecValue) : CallResult :=
  match mapIndex codecs ct with
  | some _ => { codecs := codecs, panic := some (PanicValue.alreadyRegistered codec) }
  | none => { codecs := mapAssign codecs ct codec, panic := none }

/-- A call completes when it does not panic. -/
def CallResult.completed (r : CallResult) : Bool := r.panic.isNone

/-- A call panics when it leaves a panic value. -/
def CallResult.panicked (r : CallResult) : Bool := r.panic.isSome

/-- A sequence of `registerCodec` calls, given by their arguments, run one
after the other from the map `codecs`; a panicking call is recovered from and
the run goes on from the map as that call left it. The result is the map
after the last call. -/
def runCalls (codecs : CodecMap) : List (String × CodecValue) → CodecMap
  | [] => codecs
  | call :: rest => runCalls (registerCodec codecs call.1 call.2).codecs rest

/-- The results of the calls of a sequence, in order, run as in `runCalls`. -/
def runTrace (codecs : CodecMap) : List (String × CodecValue) → List CallResult
  | [] => []
  | call :: rest =>
    registerCodec codecs call.1 call.2 ::
      runTrace (registerCodec codecs call.1 call.2).codecs rest

/-! ## Concrete codecs used in the examples -/

/-- A codec value for the examples: it answers `name` to `Name()`, supports no
chunk at all and refuses every operation. -/
def refusingCodec (name : String) : Codec where
  Encode := fun _ => Except.error (GoError.other "unsupported")
  Decode := fun _ => Except.error (GoError.other "unsupported")
  ReconstructSome := fun data _ => (data, some (GoError.other "unsupported"))
  MaxChunks := 0
  Name := name
  ValidateChunkSize := fun _ => some (GoError.other "unsupported")

/-! ## Basic facts about the map operations -/

theorem mapIndex_empty (ct : String) : mapIndex emptyCodecs ct = none := rfl

theorem mapAssign_same (codecs : CodecMap) (ct : String) (codec : CodecValue) :
    mapAssign codecs ct codec ct = some codec := by
  simp [mapAssign]

theorem mapAssign_other (codecs : CodecMap) (ct k : String) (codec : CodecValue)
    (h : k ≠ ct) : mapAssign codecs ct codec k = codecs k := by
  simp [mapAssign, h]

theorem mapIndex_assign_same (codecs : CodecMap) (ct : String) (codec : CodecValue) :
    mapIndex (mapAssign codecs ct codec) ct = codec := by
  simp [mapIndex, mapAssign]

theorem mapIndex_assign_other (codecs : CodecMap) (ct k : String) (codec : CodecValue)
    (h : k ≠ ct) : mapIndex (mapAssign codecs ct codec) k = mapIndex codecs k := by
  simp [mapIndex, mapAssign, h]

theorem mapIndex_of_absent (codecs : CodecMap) (ct : String) (h : codecs ct = none) :
    mapIndex codecs ct = none := by
  simp [mapIndex, h]

/-! ## One call -/

theorem registerCodec_of_nil (codecs : CodecMap) (ct : String) (codec : CodecValue)
    (h : mapIndex codecs ct = none) :
    registerCodec codecs ct codec = { codecs := mapAssign codecs ct codec, panic := none } := by
  simp [registerCodec, h]

theorem registerCodec_of_some (codecs : CodecMap) (ct : String) (codec : CodecValue)
    (c : Codec) (h : mapIndex codecs ct = some c) :
    registerCodec codecs ct codec =
      { codecs := codecs, panic := some (PanicValue.alreadyRegistered codec) } := by
  simp [registerCodec, h]

theorem mapIndex_eq_some_iff (codecs : CodecMap) (ct : String) (c : Codec) :
    mapIndex codecs ct = some c ↔ codecs ct = some (some c) := by
  unfold mapIndex
  cases h : codecs ct with
  | none => simp
  | some v => simp

theorem registerCodec_completed_iff (codecs : CodecMap) (ct : String) (codec : CodecValue) :
    (registerCodec codecs ct codec).completed = true ↔ mapIndex codecs ct = none := by
  cases h : mapIndex codecs ct with
  | none => simp [registerCodec, CallResult.completed, h]
  | some c => simp [registerCodec, CallResult.completed, h]

theorem registerCodec_panicked_iff (codecs : CodecMap) (ct : String) (codec : CodecValue) :
    (registerCodec codecs ct codec).panicked = true ↔ ∃ c : Codec, codecs ct = some (some c) := by
  cases h : mapIndex codecs ct with
  | none =>
    have hno : ¬ ∃ c : Codec, codecs ct = some (some c) := by
      rintro ⟨c, hc⟩
      rw [(mapIndex_eq_some_iff codecs ct c).2 hc] at h
      exact Option.noConfusion h
    simp [registerCodec, CallResult.panicked, h, hno]
  | some c =>
    have hyes : ∃ c : Codec, codecs ct = some (some c) :=
      ⟨c, (mapIndex_eq_some_iff codecs ct c).1 h⟩
    simp [registerCodec, CallResult.panicked, h, hyes]

theorem registerCodec_frame (codecs : CodecMap) (ct k : String) (codec : CodecValue)
    (h : k ≠ ct) : (registerCodec codecs ct codec).codecs k = codecs k := by
  cases hi : mapIndex codecs ct with
  | none => simp [registerCodec, hi, mapAssign, h]
  | some c => simp [registerCodec, hi]

theorem registerCodec_keeps_nonnil (codecs : CodecMap) (ct k : String) (codec : CodecValue)
    (c : Codec) (h : codecs k = some (some c)) :
    (registerCodec codecs ct codec).codecs k = some (some c) := by
  by_cases hk : k = ct
  · subst hk
    rw [registerCodec_of_some codecs k codec c ((mapIndex_eq_some_iff codecs k c).2 h)]
    exact h
  · rw [registerCodec_frame codecs ct k codec hk]
    exact h

theorem runCalls_keeps_nonnil (calls : List (String × CodecValue)) :
    ∀ (codecs : CodecMap) (k : String) (c : Codec), codecs k = some (some c) →
      runCalls codecs calls k = some (some c) := by
  induction calls with
  | nil => intro codecs k c h; exact h
  | cons call rest ih =>
    intro codecs k c h
    exact ih _ k c (registerCodec_keeps_nonnil codecs call.1 k call.2 c h)

/-! ## The panic condition of `registerCodec` (C9, C8, C4) -/

/-- C9. Exact panic condition: `registerCodec(ct, codec)` panics if and only
if the map `codecs` currently holds a non-nil `Codec` under `ct`; otherwise it
completes and the map then holds `codec` under `ct`. -/
theorem registerCodec_exact_panic_condition (codecs : CodecMap) (ct : String)
    (codec : CodecValue) :
    ((registerCodec codecs ct codec).panicked = true ↔
        ∃ c : Codec, codecs ct = some (some c)) ∧
      ((¬ ∃ c : Codec, codecs ct = some (some c)) →
        (registerCodec codecs ct codec).completed = true ∧
          (registerCodec codecs ct codec).codecs ct = some codec) := by
  refine ⟨registerCodec_panicked_iff codecs ct codec, fun hno => ?_⟩
  have hnil : mapIndex codecs ct = none := by
    cases h : mapIndex codecs ct with
    | none => rfl
    | some c => exact absurd ⟨c, (mapIndex_eq_some_iff codecs ct c).1 h⟩ hno
  rw [registerCodec_of_nil codecs ct codec hnil]
  exact ⟨rfl, mapAssign_same codecs ct codec⟩

/-- Witness for C9 on the empty map: registering the Leopard codec under
`Leopard` does not panic and stores it. -/
theorem registerCodec_exact_panic_condition_witness :
    ((registerCodec emptyCodecs Leopard (some (refusingCodec Leopard))).panicked = true ↔
        ∃ c : Codec, emptyCodecs Leopard = some (some c)) ∧
      (registerCodec emptyCodecs Leopard (some (refusingCodec Leopard))).completed = true ∧
      (registerCodec emptyCodecs Leopard (some (refusingCodec Leopard))).codecs Leopard =
        some (some (refusingCodec Leopard)) :=
  ⟨(registerCodec_exact_panic_condition emptyCodecs Leopard
      (some (refusingCodec Leopard))).1,
   (registerCodec_exact_panic_condition emptyCodecs Leopard
      (some (refusingCodec Leopard))).2
      (by rintro ⟨c, hc⟩; exact Option.noConfusion hc)⟩

/-- C8. No silent overwrite: if `registerCodec(ct, codec)` panics then the
whole map `codecs` is identical to what it was before the call. -/
theorem registerCodec_panic_leaves_map (codecs : CodecMap) (ct : String)
    (codec : CodecValue) (h : (registerCodec codecs ct codec).panicked = true) :
    (registerCodec codecs ct codec).codecs = codecs := by
  obtain ⟨c, hc⟩ := (registerCodec_panicked_iff codecs ct codec).1 h
  rw [registerCodec_of_some codecs ct codec c ((mapIndex_eq_some_iff codecs ct c).2 hc)]

/-- Witness for C8: with a codec stored under `Leopard`, registering another
codec under `Leopard` panics and the map is the one before the call. -/
theorem registerCodec_panic_leaves_map_witness :
    (registerCodec (mapAssign emptyCodecs Leopard (some (refusingCodec Leopard))) Leopard
        (some (refusingCodec "other"))).panicked = true ∧
      (registerCodec (mapAssign emptyCodecs Leopard (some (refusingCodec Leopard))) Leopard
        (some (refusingCodec "other"))).codecs =
        mapAssign emptyCodecs Leopard (some (refusingCodec Leopard)) :=
  ⟨by rfl,
   registerCodec_panic_leaves_map
     (mapAssign emptyCodecs Leopard (some (refusingCodec Leopard))) Leopard
     (some (refusingCodec "other")) (by rfl)⟩

/-- C4. Registration touches only its own name: after
`registerCodec(ct, codec)`, whether it completes or panics, the entry of every
name other than `ct` is the same as before the call. -/
theorem registerCodec_touches_only_ct (codecs : CodecMap) (ct k : String)
    (codec : CodecValue) (h : k ≠ ct) :
    (registerCodec codecs ct codec).codecs k = codecs k :=
  registerCodec_frame codecs ct k codec h

/-- Witness for C4: registering under `"other"` leaves the entry of `Leopard`
as it was. -/
theorem registerCodec_touches_only_ct_witness :
    Leopard ≠ "other" ∧
      (registerCodec (mapAssign emptyCodecs Leopard (some (refusingCodec Leopard))) "other"
        (some (refusingCodec "other"))).codecs Leopard =
        mapAssign emptyCodecs Leopard (some (refusingCodec Leopard)) Leopard :=
  ⟨by decide,
   registerCodec_touches_only_ct
     (mapAssign emptyCodecs Leopard (some (refusingCodec Leopard))) "other" Leopard
     (some (refusingCodec "other")) (by decide)⟩

/-! ## Registering a name twice (C1, C10) -/

/-- C1, as stated, fails: on the empty map `registerCodec(Leopard, nil)`
completes, and the following `registerCodec(Leopard, c2)` completes as well
instead of panicking, because the guard compares `codecs[ct]` with nil. -/
theorem registerCodec_twice_after_nil_completes :
    ¬ ∀ (codecs : CodecMap) (ct : String) (c1 c2 : CodecValue),
        (registerCodec codecs ct c1).completed = true →
          (registerCodec (registerCodec codecs ct c1).codecs ct c2).panicked = true := by
  intro h
  have h1 := h emptyCodecs Leopard none (some (refusingCodec Leopard)) (by rfl)
  have h2 : (registerCodec (registerCodec emptyCodecs Leopard none).codecs Leopard
      (some (refusingCodec Leopard))).panicked = false := by rfl
  rw [h2] at h1
  exact Bool.noConfusion h1

/-- C1, amended. Registering the same name twice aborts when the first codec
is not nil: if `registerCodec(ct, c1)` completes for a non-nil `c1`, then a
following `registerCodec(ct, c2)` panics, with the message built from `c2`. -/
theorem registerCodec_twice_panics (codecs : CodecMap) (ct : String) (c1 : Codec)
    (c2 : CodecValue) (h : (registerCodec codecs ct (some c1)).completed = true) :
    (registerCodec (registerCodec codecs ct (some c1)).codecs ct c2).panicked = true ∧
      (registerCodec (registerCodec codecs ct (some c1)).codecs ct c2).panic =
        some (PanicValue.alreadyRegistered c2) := by
  have hnil := (registerCodec_completed_iff codecs ct (some c1)).1 h
  rw [registerCodec_of_nil codecs ct (some c1) hnil]
  rw [registerCodec_of_some (mapAssign codecs ct (some c1)) ct c2 c1
    (mapIndex_assign_same codecs ct (some c1))]
  exact ⟨rfl, rfl⟩

/-- Witness for the amended C1 on the empty map. -/
theorem registerCodec_twice_panics_witness :
    (registerCodec emptyCodecs Leopard (some (refusingCodec Leopard))).completed = true ∧
      (registerCodec (registerCodec emptyCodecs Leopard (some (refusingCodec Leopard))).codecs
        Leopard (some (refusingCodec "other"))).panicked = true ∧
      (registerCodec (registerCodec emptyCodecs Leopard (some (refusingCodec Leopard))).codecs
        Leopard (some (refusingCodec "other"))).panic =
        some (PanicValue.alreadyRegistered (some (refusingCodec "other"))) :=
  ⟨by rfl,
   registerCodec_twice_panics emptyCodecs Leopard (refusingCodec Leopard)
     (some (refusingCodec "other")) (by rfl)⟩

theorem mapAssign_assign (codecs : CodecMap) (ct : String) (c1 c2 : CodecValue) :
    mapAssign (mapAssign codecs ct c1) ct c2 = mapAssign codecs ct c2 := by
  funext k
  by_cases hk : k = ct <;> simp [mapAssign, hk]

theorem registerCodec_panic_congr (s t : CodecMap) (ct : String) (codec : CodecValue)
    (h : ∀ k, mapIndex s k = mapIndex t k) :
    (registerCodec s ct codec).panic = (registerCodec t ct codec).panic := by
  unfold registerCodec
  rw [h ct]
  cases mapIndex t ct <;> rfl

theorem registerCodec_index_congr (s t : CodecMap) (ct : String) (codec : CodecValue)
    (h : ∀ k, mapIndex s k = mapIndex t k) :
    ∀ k, mapIndex (registerCodec s ct codec).codecs k =
      mapIndex (registerCodec t ct codec).codecs k := by
  intro k
  have hct := h ct
  cases ht : mapIndex t ct with
  | none =>
    rw [ht] at hct
    rw [registerCodec_of_nil s ct codec hct, registerCodec_of_nil t ct codec ht]
    by_cases hk : k = ct
    · subst hk
      simp [mapIndex_assign_same]
    · simp [mapIndex_assign_other, hk, h k]
  | some c =>
    rw [ht] at hct
    rw [registerCodec_of_some s ct codec c hct, registerCodec_of_some t ct codec c ht]
    exact h k

theorem runCalls_congr (calls : List (String × CodecValue)) :
    ∀ (s t : CodecMap), (∀ k, mapIndex s k = mapIndex t k) →
      (runTrace s calls).map CallResult.panic = (runTrace t calls).map CallResult.panic ∧
        ∀ k, mapIndex (runCalls s calls) k = mapIndex (runCalls t calls) k := by
  induction calls with
  | nil => intro s t h; exact ⟨rfl, h⟩
  | cons call rest ih =>
    intro s t h
    have hstep := registerCodec_index_congr s t call.1 call.2 h
    have hrest := ih _ _ hstep
    refine ⟨?_, hrest.2⟩
    simp only [runTrace, List.map_cons]
    rw [registerCodec_panic_congr s t call.1 call.2 h, hrest.1]

/-- C10. Nil-codec edge case: for a name `ct` not yet registered,
`registerCodec(ct, nil)` completes without panicking, and for every codec `c`
a following `registerCodec(ct, c)` also completes without panicking and leaves
`c` stored under `ct`. A name registered with a nil codec is
indistinguishable from an unregistered name: the follow-up call ends exactly
as it would have on the map before the nil registration, every index
expression `codecs[k]` reads the same as before it, and every further sequence
of `registerCodec` calls panics at the same calls, with the same values, and
leaves the same readings. -/
theorem registerCodec_nil_then_any (codecs : CodecMap) (ct : String) (c : CodecValue)
    (h : codecs ct = none) :
    (registerCodec codecs ct none).completed = true ∧
      (registerCodec (registerCodec codecs ct none).codecs ct c).completed = true ∧
      (registerCodec (registerCodec codecs ct none).codecs ct c).codecs ct = some c ∧
      registerCodec (registerCodec codecs ct none).codecs ct c = registerCodec codecs ct c ∧
      (∀ k, mapIndex (registerCodec codecs ct none).codecs k = mapIndex codecs k) ∧
      ∀ calls : List (String × CodecValue),
        (runTrace (registerCodec codecs ct none).codecs calls).map CallResult.panic =
            (runTrace codecs calls).map CallResult.panic ∧
          ∀ k, mapIndex (runCalls (registerCodec codecs ct none).codecs calls) k =
            mapIndex (runCalls codecs calls) k := by
  have hnil : mapIndex codecs ct = none := mapIndex_of_absent codecs ct h
  have hidx : ∀ k, mapIndex (mapAssign codecs ct none) k = mapIndex codecs k := by
    intro k
    by_cases hk : k = ct
    · subst hk
      rw [mapIndex_assign_same, hnil]
    · exact mapIndex_assign_other codecs ct k none hk
  have hnil2 : mapIndex (mapAssign codecs ct none) ct = none :=
    mapIndex_assign_same codecs ct none
  rw [registerCodec_of_nil codecs ct none hnil]
  rw [registerCodec_of_nil (mapAssign codecs ct none) ct c hnil2]
  rw [registerCodec_of_nil codecs ct c hnil]
  refine ⟨rfl, rfl, mapAssign_same _ ct c, ?_, hidx, fun calls => ?_⟩
  · rw [mapAssign_assign]
  · exact runCalls_congr calls _ _ hidx

/-- Witness for C10 on the empty map, with the name `Leopard`. -/
theorem registerCodec_nil_then_any_witness :
    emptyCodecs Leopard = none ∧
      (registerCodec emptyCodecs Leopard none).completed = true ∧
      (registerCodec (registerCodec emptyCodecs Leopard none).codecs Leopard
        (some (refusingCodec Leopard))).completed = true ∧
      (registerCodec (registerCodec emptyCodecs Leopard none).codecs Leopard
        (some (refusingCodec Leopard))).codecs Leopard = some (some (refusingCodec Leopard)) :=
  ⟨rfl,
   (registerCodec_nil_then_any emptyCodecs Leopard (some (refusingCodec Leopard)) rfl).1,
   (registerCodec_nil_then_any emptyCodecs Leopard (some (refusingCodec Leopard)) rfl).2.1,
   (registerCodec_nil_then_any emptyCodecs Leopard (some (refusingCodec Leopard)) rfl).2.2.1⟩

/-! ## Sequences of calls (C2, C3, C5) -/

/-- C2, as stated, fails: on the empty map `registerCodec(Leopard, nil)`
completes and the map holds nil under `Leopard`; a later
`registerCodec(Leopard, c)` replaces that entry by `c`. -/
theorem registered_nil_entry_is_replaced :
    ¬ ∀ (codecs : CodecMap) (ct : String) (c : CodecValue)
        (later : List (String × CodecValue)),
        (registerCodec codecs ct c).completed = true →
          runCalls (registerCodec codecs ct c).codecs later ct = some c := by
  intro h
  have h1 := h emptyCodecs Leopard none [(Leopard, some (refusingCodec Leopard))] (by rfl)
  have h2 : runCalls (registerCodec emptyCodecs Leopard none).codecs
      [(Leopard, some (refusingCodec Leopard))] Leopard =
      some (some (refusingCodec Leopard)) := by rfl
  rw [h2] at h1
  exact Option.noConfusion (Option.some.inj h1)

/-- C2, amended. A name registered with a non-nil codec identifies that codec
for good: once a call `registerCodec(ct, c)` with `c` not nil has completed,
the map `codecs` holds `c` under `ct` after every later sequence of
`registerCodec` calls, panicking calls included. -/
theorem registered_entry_persists (codecs : CodecMap) (ct : String) (c : Codec)
    (later : List (String × CodecValue))
    (h : (registerCodec codecs ct (some c)).completed = true) :
    runCalls (registerCodec codecs ct (some c)).codecs later ct = some (some c) := by
  have hnil := (registerCodec_completed_iff codecs ct (some c)).1 h
  apply runCalls_keeps_nonnil
  rw [registerCodec_of_nil codecs ct (some c) hnil]
  exact mapAssign_same codecs ct (some c)

/-- Witness for the amended C2: after `Leopard` is registered, a second
registration under `Leopard`, a nil registration under `Leopard` and a
registration under another name leave the entry of `Leopard` in place. -/
theorem registered_entry_persists_witness :
    (registerCodec emptyCodecs Leopard (some (refusingCodec Leopard))).completed = true ∧
      runCalls (registerCodec emptyCodecs Leopard (some (refusingCodec Leopard))).codecs
        [(Leopard, some (refusingCodec "other")), (Leopard, none),
          ("other", some (refusingCodec "other"))] Leopard =
        some (some (refusingCodec Leopard)) :=
  ⟨by rfl,
   registered_entry_persists emptyCodecs Leopard (refusingCodec Leopard)
     [(Leopard, some (refusingCodec "other")), (Leopard, none),
       ("other", some (refusingCodec "other"))] (by rfl)⟩

theorem runCalls_fresh (calls : List (String × CodecValue)) :
    ∀ (codecs : CodecMap), (calls.map Prod.fst).Nodup →
      (∀ call ∈ calls, mapIndex codecs call.1 = none) →
      (∀ r ∈ runTrace codecs calls, r.panic = none) ∧
        (∀ call ∈ calls, runCalls codecs calls call.1 = some call.2) ∧
        (∀ k, k ∉ calls.map Prod.fst → runCalls codecs calls k = codecs k) := by
  induction calls with
  | nil =>
    intro codecs _ _
    refine ⟨?_, ?_, ?_⟩
    · intro r hr; simp [runTrace] at hr
    · intro call hc; simp at hc
    · intro k _; rfl
  | cons call rest ih =>
    intro codecs hnd hfresh
    have hhead : mapIndex codecs call.1 = none := hfresh call (List.mem_cons_self _ _)
    rw [List.map_cons, List.nodup_cons] at hnd
    have hne : ∀ c ∈ rest, c.1 ≠ call.1 := by
      intro c hc heq
      exact hnd.1 (heq ▸ List.mem_map_of_mem Prod.fst hc)
    have hfresh2 : ∀ c ∈ rest, mapIndex (mapAssign codecs call.1 call.2) c.1 = none := by
      intro c hc
      rw [mapIndex_assign_other codecs call.1 c.1 call.2 (hne c hc)]
      exact hfresh c (List.mem_cons_of_mem _ hc)
    obtain ⟨ih1, ih2, ih3⟩ := ih (mapAssign codecs call.1 call.2) hnd.2 hfresh2
    have hreg := registerCodec_of_nil codecs call.1 call.2 hhead
    refine ⟨?_, ?_, ?_⟩
    · intro r hr
      simp only [runTrace, hreg, List.mem_cons] at hr
      rcases hr with hr | hr
      · rw [hr]
      · exact ih1 r hr
    · intro c hc
      simp only [runCalls, hreg]
      rcases List.mem_cons.1 hc with hc | hc
      · rw [hc, ih3 call.1 hnd.1]
        exact mapAssign_same codecs call.1 call.2
      · exact ih2 c hc
    · intro k hk
      simp only [runCalls, hreg]
      rw [List.map_cons, List.mem_cons, not_or] at hk
      rw [ih3 k hk.2]
      exact mapAssign_other codecs call.1 k call.2 hk.1

/-- C3. The registry is exactly what was registered: starting from the
initial, empty map `codecs`, for every list of (name, codec) pairs with
pairwise distinct names, each registered once, in order, via `registerCodec`,
no call panics, and afterwards looking up each listed name yields the codec
registered under it (the map holds it under that name) while looking up any
name not in the list yields nil (the map has no such key). -/
theorem registry_is_what_was_registered (calls : List (String × CodecValue))
    (h : (calls.map Prod.fst).Nodup) :
    (∀ r ∈ runTrace emptyCodecs calls, r.completed = true) ∧
      (∀ call ∈ calls, mapIndex (runCalls emptyCodecs calls) call.1 = call.2 ∧
        runCalls emptyCodecs calls call.1 = some call.2) ∧
      (∀ k, k ∉ calls.map Prod.fst → mapIndex (runCalls emptyCodecs calls) k = none ∧
        runCalls emptyCodecs calls k = none) := by
  obtain ⟨h1, h2, h3⟩ := runCalls_fresh calls emptyCodecs h (fun call _ => rfl)
  refine ⟨?_, ?_, ?_⟩
  · intro r hr
    simp [CallResult.completed, h1 r hr]
  · intro call hc
    refine ⟨?_, h2 call hc⟩
    simp [mapIndex, h2 call hc]
  · intro k hk
    have hk2 : runCalls emptyCodecs calls k = none := by rw [h3 k hk]; rfl
    exact ⟨mapIndex_of_absent _ k hk2, hk2⟩

/-- Witness for C3: two codecs registered under two distinct names. -/
theorem registry_is_what_was_registered_witness :
    ([(Leopard, some (refusingCodec Leopard)),
        ("other", some (refusingCodec "other"))].map Prod.fst).Nodup ∧
      (∀ r ∈ runTrace emptyCodecs [(Leopard, some (refusingCodec Leopard)),
        ("other", some (refusingCodec "other"))], r.completed = true) ∧
      mapIndex (runCalls emptyCodecs [(Leopard, some (refusingCodec Leopard)),
        ("other", some (refusingCodec "other"))]) Leopard = some (refusingCodec Leopard) ∧
      mapIndex (runCalls emptyCodecs [(Leopard, some (refusingCodec Leopard)),
        ("other", some (refusingCodec "other"))]) "third" = none :=
  ⟨by decide,
   (registry_is_what_was_registered [(Leopard, some (refusingCodec Leopard)),
      ("other", some (refusingCodec "other"))] (by decide)).1,
   ((registry_is_what_was_registered [(Leopard, some (refusingCodec Leopard)),
      ("other", some (refusingCodec "other"))] (by decide)).2.1
        (Leopard, some (refusingCodec Leopard)) (List.mem_cons_self _ _)).1,
   ((registry_is_what_was_registered [(Leopard, some (refusingCodec Leopard)),
      ("other", some (refusingCodec "other"))] (by decide)).2.2 "third" (by decide)).1⟩

/-- C5, as stated, fails: `registerCodec` does not compare `ct` with
`codec.Name()`, so registering the codec named `Leopard` under `"other"` on
the empty map leaves an entry whose codec answers `Leopard`, not its key. -/
theorem registry_key_need_not_be_name :
    ¬ ∀ (calls : List (String × CodecValue)) (k : String) (c : CodecValue),
        runCalls emptyCodecs calls k = some c → c.callName = some k := by
  intro h
  have h1 := h [("other", some (refusingCodec Leopard))] "other"
    (some (refusingCodec Leopard)) (by rfl)
  exact absurd (Option.some.inj h1) (by decide)

theorem registerCodec_keeps_named (codecs : CodecMap) (ct : String) (codec : CodecValue)
    (hinv : ∀ k c, codecs k = some c → c.callName = some k)
    (hcall : codec.callName = some ct) :
    ∀ k c, (registerCodec codecs ct codec).codecs k = some c → c.callName = some k := by
  intro k c hk
  by_cases hkc : k = ct
  · subst hkc
    cases hi : mapIndex codecs k with
    | none =>
      rw [registerCodec_of_nil codecs k codec hi] at hk
      have hk2 : mapAssign codecs k codec k = some c := hk
      rw [mapAssign_same] at hk2
      rw [← Option.some.inj hk2]
      exact hcall
    | some d =>
      rw [registerCodec_of_some codecs k codec d hi] at hk
      exact hinv k c hk
  · rw [registerCodec_frame codecs ct k codec hkc] at hk
    exact hinv k c hk

theorem runCalls_keeps_named (calls : List (String × CodecValue)) :
    ∀ (codecs : CodecMap), (∀ k c, codecs k = some c → c.callName = some k) →
      (∀ call ∈ calls, call.2.callName = some call.1) →
      ∀ k c, runCalls codecs calls k = some c → c.callName = some k := by
  induction calls with
  | nil => intro codecs hinv _ k c hk; exact hinv k c hk
  | cons call rest ih =>
    intro codecs hinv hcalls
    exact ih _ (registerCodec_keeps_named codecs call.1 call.2 hinv
        (hcalls call (List.mem_cons_self _ _)))
      (fun c hc => hcalls c (List.mem_cons_of_mem _ hc))

/-- C5, amended. `Name()` returns the registry key when codecs are registered
under their own names: for every registry state reached from the empty
registry by `registerCodec` calls each of which passes a codec whose `Name()`
is the name `ct` of that call, every entry (k, c) of the map `codecs`
satisfies `c.Name() = k`. -/
theorem registry_key_is_name (calls : List (String × CodecValue)) (k : String)
    (c : CodecValue) (hcalls : ∀ call ∈ calls, call.2.callName = some call.1)
    (hentry : runCalls emptyCodecs calls k = some c) :
    c.callName = some k :=
  runCalls_keeps_named calls emptyCodecs
    (fun _ _ hk => Option.noConfusion hk) hcalls k c hentry

/-- Witness for the amended C5: two codecs registered under their own names,
and a repeated registration, leave the Leopard codec under `Leopard`. -/
theorem registry_key_is_name_witness :
    (∀ call ∈ [(Leopard, some (refusingCodec Leopard)),
        ("other", some (refusingCodec "other")), (Leopard, some (refusingCodec Leopard))],
        CodecValue.callName call.2 = some call.1) ∧
      runCalls emptyCodecs [(Leopard, some (refusingCodec Leopard)),
        ("other", some (refusingCodec "other")), (Leopard, some (refusingCodec Leopard))]
        Leopard = some (some (refusingCodec Leopard)) ∧
      CodecValue.callName (some (refusingCodec Leopard)) = some Leopard :=
  ⟨by simp [CodecValue.callName, refusingCodec],
   by rfl,
   registry_key_is_name [(Leopard, some (refusingCodec Leopard)),
        ("other", some (refusingCodec "other")), (Leopard, some (refusingCodec Leopard))]
     Leopard (some (refusingCodec Leopard))
     (by simp [CodecValue.callName, refusingCodec]) (by rfl)⟩

end Rsmt2d
